import Mathlib

/-!
Verification development for the iOSCPM repository (RomWBW/HBIOS emulator
core and the simple CP/M BIOS layout).

The sources under src/iOSCPM/Core provide hbios_core.cc (the emulator
driver: port handlers, RAM bank initialization, ROM loading, reset, batch
execution, input queueing) and CPMBios.cc (the simple CP/M BIOS table
initialization).  The banked memory class (romwbw_mem.h), the HBIOS
dispatcher (hbios_dispatch.h) and the Z80 CPU (qkz80.h) are declared but
not part of the sources; the definitions below that stand for them are
modelled from the specification and are marked as such in their doc
comments.  Machine bytes and 16-bit addresses are represented as Nat,
with masking written explicitly where the C code truncates.
-/

namespace HBCore

set_option maxRecDepth 100000
set_option maxHeartbeats 4000000

/-- Pointwise update of a byte array modelled as a function. -/
def updateFn (f : Nat → Nat) (a v : Nat) : Nat → Nat :=
  fun x => if x = a then v else f x

/-- Modelled from the spec: the banked physical memory of romwbw_mem.h
(class banked_mem, not in the sources).  Two byte arrays, rom and ram of
512 KiB each, and the current bank register (spec section 3, Memory). -/
structure BankedMem where
  rom : Nat → Nat
  ram : Nat → Nat
  current_bank : Nat

/-- Physical offset of address `a` inside the bank selected by byte `b`:
low nibble of `b` is the bank index, each bank is 32 KiB (spec 3/4.1). -/
def bankPhys (b a : Nat) : Nat := (b &&& 0x0F) * 0x8000 + a

/-- Modelled from the spec: read_bank of banked_mem.  Addresses at or
above 0x8000 always read the common area, which is RAM bank index 15 at
physical offset 0x78000 (spec invariant B and section 4.1); below
0x8000, bit 7 of the bank byte selects RAM over ROM and the low nibble
selects the 32 KiB bank. -/
def readBank (m : BankedMem) (b a : Nat) : Nat :=
  if 0x8000 ≤ a then m.ram (0x78000 + (a - 0x8000))
  else if b &&& 0x80 ≠ 0 then m.ram (bankPhys b a)
  else m.rom (bankPhys b a)

/-- Modelled from the spec: write_bank of banked_mem.  Same address
resolution as readBank; writes that resolve to ROM are discarded (spec
invariant A). -/
def writeBank (m : BankedMem) (b a v : Nat) : BankedMem :=
  if 0x8000 ≤ a then { m with ram := updateFn m.ram (0x78000 + (a - 0x8000)) v }
  else if b &&& 0x80 ≠ 0 then { m with ram := updateFn m.ram (bankPhys b a) v }
  else m

/-- Modelled from the spec: fetch_mem of banked_mem uses the currently
selected bank for the low half and the common area for the high half. -/
def fetchMem (m : BankedMem) (a : Nat) : Nat :=
  readBank m m.current_bank a

/-- Modelled from the spec: store_mem of banked_mem. -/
def storeMem (m : BankedMem) (a v : Nat) : BankedMem :=
  writeBank m m.current_bank a v

/-- Modelled from the spec: select_bank of banked_mem sets the active
bank register.  In this application the first-select RAM bank
initialization is performed by the driver (initializeRamBankIfNeeded in
hbios_core.cc) before select_bank is called, so select_bank itself only
stores the register. -/
def selectBank (m : BankedMem) (b : Nat) : BankedMem :=
  { m with current_bank := b }

/-- Modelled from the spec: clear_ram of banked_mem zeroes all RAM. -/
def clearRam (m : BankedMem) : BankedMem :=
  { m with ram := fun _ => 0 }

/-- State variable of the HBIOS dispatcher (spec section 3, HBIOS
Dispatch). -/
inductive HState where
  | Idle
  | NeedsInput
  | Halted
deriving DecidableEq

/-- Modelled from the spec: the HBIOS dispatcher state that the driver
code in hbios_core.cc observes (hbios_dispatch.h is not in the sources):
the state variable, the input ring and the output ring (FIFO lists, front
is the oldest element), and the blocking-allowed flag. -/
structure HBIOSDispatch where
  state : HState
  input : List Nat
  output : List Nat
  blockingAllowed : Bool

/-- Modelled from the spec: HBIOSDispatch reset clears the input and
output buffers and returns the state machine to Idle. -/
def hbiosReset (h : HBIOSDispatch) : HBIOSDispatch :=
  { h with state := .Idle, input := [], output := [] }

/-- Modelled from the spec: queueInputChar appends one character to the
input ring; NeedsInput is cleared the moment a character is queued (spec
section 4.4, dispatch state machine). -/
def queueInputChar (h : HBIOSDispatch) (c : Nat) : HBIOSDispatch :=
  { h with input := h.input ++ [c],
           state := if h.state = .NeedsInput then .Idle else h.state }

/-- Modelled from the spec: queueOutputChar appends one character to the
output ring. -/
def queueOutputChar (h : HBIOSDispatch) (c : Nat) : HBIOSDispatch :=
  { h with output := h.output ++ [c] }

/-- Modelled from the spec: hasInputChar tests whether the input ring is
non-empty. -/
def hasInputChar (h : HBIOSDispatch) : Bool :=
  !h.input.isEmpty

/-- Modelled from the spec: readInputChar pops the oldest character from
the input ring; the C version returns a negative value when the ring is
empty, rendered here as none. -/
def readInputChar (h : HBIOSDispatch) : Option Nat × HBIOSDispatch :=
  match h.input with
  | [] => (none, h)
  | c :: rest => (some c, { h with input := rest })

/-- Modelled from the spec: getOutputChars drains the output ring,
returning all buffered characters in push order. -/
def getOutputChars (h : HBIOSDispatch) : List Nat × HBIOSDispatch :=
  (h.output, { h with output := [] })

/-- The Z80 register pairs of qkz80.h that hbios_core.cc touches, each a
16-bit value represented as Nat. -/
structure Z80Regs where
  AF : Nat
  BC : Nat
  DE : Nat
  HL : Nat
  IX : Nat
  SP : Nat
  PC : Nat

/-- The HBIOSEmulator state from hbios_core.h: banked memory, CPU
registers, the HBIOS dispatcher, the driver flags and counters, and the
characters already forwarded to the console delegate (the delegate sink
is modelled as the list `console`). -/
structure EmuState where
  mem : BankedMem
  regs : Z80Regs
  hbios : HBIOSDispatch
  running : Bool
  waiting_for_input : Bool
  instruction_count : Nat
  boot_string_pos : Nat
  initialized_ram_banks : Nat
  console : List Nat

/-- The copy loops of HBIOSEmulator::initializeRamBankIfNeeded
(hbios_core.cc lines 295-304): for addr in [start, start+n), read from
bank 0x00 (ROM bank 0) and write to bank `b`, ascending. -/
def bankInitLoop (b : Nat) : Nat → Nat → BankedMem → BankedMem
  | _, 0, m => m
  | start, Nat.succ n, m =>
      bankInitLoop b (start + 1) n (writeBank m b start (readBank m 0x00 start))

/-- HBIOSEmulator::initializeRamBankIfNeeded (hbios_core.cc lines
285-308): returns unchanged unless bit 7 of `bank` is set and bits 4..6
are all clear; returns unchanged when the bank index is already in the
initialized bitmask; otherwise copies page zero (0x0000..0x00FF) and the
HCB (0x0100..0x01FF) from ROM bank 0 into the RAM bank and records the
index in the bitmask. -/
def initializeRamBankIfNeeded (s : EmuState) (bank : Nat) : EmuState :=
  if bank &&& 0x80 = 0 ∨ bank &&& 0x70 ≠ 0 then s
  else if s.initialized_ram_banks &&& (1 <<< (bank &&& 0x0F)) ≠ 0 then s
  else
    { s with
      mem := bankInitLoop bank 0x0100 0x0100 (bankInitLoop bank 0x0000 0x0100 s.mem),
      initialized_ram_banks :=
        s.initialized_ram_banks ||| (1 <<< (bank &&& 0x0F)) }

/-- One iteration of the byte loop of the port 0xEC handler in
hbios_cpu::port_out (hbios_core.cc lines 99-117): source and destination
addresses wrap at 16 bits; a source at or above 0x8000 comes from the
common window via fetch_mem, below from read_bank with the source bank;
symmetric for the destination. -/
def bnkcpyStep (sb db srcA dstA i : Nat) (m : BankedMem) : BankedMem :=
  let sA := (srcA + i) % 65536
  let dA := (dstA + i) % 65536
  let byte := if 0x8000 ≤ sA then fetchMem m sA else readBank m sb sA
  if 0x8000 ≤ dA then storeMem m dA byte else writeBank m db dA byte

/-- The iteration of bnkcpyStep over i = i0, i0+1, ... (the for loop of
the port 0xEC handler). -/
def bnkcpyLoop (sb db srcA dstA : Nat) : Nat → Nat → BankedMem → BankedMem
  | _, 0, m => m
  | i, Nat.succ n, m =>
      bnkcpyLoop sb db srcA dstA (i + 1) n (bnkcpyStep sb db srcA dstA i m)

/-- hbios_cpu::port_out (hbios_core.cc lines 62-228) restricted to the
cases whose handlers are in the sources: 0x78/0x7C (bank register with
first-select RAM initialization), 0xEC (inter-bank copy) and 0x68 (UART
data output).  Ports 0xED, 0xEE and 0xEF enter the HBIOS dispatcher,
whose implementation is not part of the sources; they are left as
identity here and no claim below depends on them. -/
def portOutState (s : EmuState) (port value : Nat) : EmuState :=
  if port = 0x78 ∨ port = 0x7C then
    let s1 := initializeRamBankIfNeeded s value
    { s1 with mem := selectBank s1.mem value }
  else if port = 0xEC then
    let src_addr := s.regs.HL
    let dst_addr := s.regs.DE
    let length := s.regs.BC
    let src_bank := fetchMem s.mem 0xFFE4
    let dst_bank := fetchMem s.mem 0xFFE7
    { s with mem := bnkcpyLoop src_bank dst_bank src_addr dst_addr 0 length s.mem }
  else if port = 0x68 then
    { s with hbios := queueOutputChar s.hbios value }
  else
    s

/-- hbios_cpu::port_in (hbios_core.cc lines 39-60): 0x68 pops the input
ring (0 when empty, low byte otherwise), 0x6D is the UART line status
byte 0x60 plus the ready bit, 0x78/0x7C return the current bank register,
0xFE returns 0, every other port returns 0xFF. -/
def portInState (s : EmuState) (port : Nat) : Nat × EmuState :=
  if port = 0x68 then
    match readInputChar s.hbios with
    | (some c, h2) => (c &&& 0xFF, { s with hbios := h2 })
    | (none, h2) => (0, { s with hbios := h2 })
  else if port = 0x6D then
    (0x60 ||| (if hasInputChar s.hbios then 0x01 else 0x00), s)
  else if port = 0x78 ∨ port = 0x7C then
    (s.mem.current_bank, s)
  else if port = 0xFE then
    (0x00, s)
  else
    (0xFF, s)

/-- HBIOSEmulator::loadROM (hbios_core.cc lines 314-358) with the ROM
data as a list of bytes (a null pointer or zero size is the empty list):
on empty data return false and change nothing; otherwise clear RAM, copy
up to 512 KiB into ROM from offset 0, patch ROM offset 0x0112 to 0x00,
copy the first 512 bytes of ROM into the start of RAM (RAM bank index 0)
and return true. -/
def loadROM (m : BankedMem) (data : List Nat) : Bool × BankedMem :=
  if data.isEmpty then (false, m)
  else
    let m1 := clearRam m
    let copy_size := min data.length (512 * 1024)
    let rom1 : Nat → Nat := fun i => if i < copy_size then data.getD i 0 else m1.rom i
    let rom2 := updateFn rom1 0x0112 0x00
    let ram2 : Nat → Nat := fun j => if j < 512 then rom2 j else m1.ram j
    (true, { m1 with rom := rom2, ram := ram2 })

/-- HBIOSEmulator::reset (hbios_core.cc lines 259-279): clear the driver
flags and counters, reset the HBIOS dispatcher, zero the register pairs
AF, BC, DE, HL, PC, SP, and select ROM bank 0. -/
def resetEmu (s : EmuState) : EmuState :=
  { s with running := false,
           waiting_for_input := false,
           instruction_count := 0,
           boot_string_pos := 0,
           initialized_ram_banks := 0,
           hbios := hbiosReset s.hbios,
           regs := { s.regs with AF := 0, BC := 0, DE := 0, HL := 0, PC := 0, SP := 0 },
           mem := selectBank s.mem 0 }

/-- HBIOSEmulator::queueInput (hbios_core.cc lines 414-427): replace a
line feed by a carriage return, queue the character to the HBIOS input
ring, and clear the waiting-for-input flag if it was set. -/
def queueInput (s : EmuState) (ch : Nat) : EmuState :=
  let ch2 := if ch = 0x0A then 0x0D else ch
  let s1 := { s with hbios := queueInputChar s.hbios ch2 }
  if s1.waiting_for_input then { s1 with waiting_for_input := false } else s1

/-- One iteration body of the instruction loop of
HBIOSEmulator::runBatch: execute one instruction (cpu.execute,
abstracted as `step` since the CPU implementation is not in the sources)
and bump the instruction counter. -/
def execOnce (step : EmuState → EmuState) (s : EmuState) : EmuState :=
  { step s with instruction_count := (step s).instruction_count + 1 }

/-- The instruction loop of HBIOSEmulator::runBatch (hbios_core.cc lines
617-655): while iterations remain and running is set, execute one
instruction, then inspect the dispatcher state - NeedsInput sets the
waiting flag and stops, Halted clears running and stops, Idle
continues. -/
def runLoop (step : EmuState → EmuState) : Nat → EmuState → EmuState
  | 0, s => s
  | Nat.succ n, s =>
      if s.running then
        match (execOnce step s).hbios.state with
        | .NeedsInput => { execOnce step s with waiting_for_input := true }
        | .Halted => { execOnce step s with running := false }
        | .Idle => runLoop step n (execOnce step s)
      else s

/-- The output drain at the end of HBIOSEmulator::runBatch (hbios_core.cc
lines 658-663): when the output ring is non-empty, fetch all buffered
characters and forward each one, in order, to the console delegate. -/
def drainOutput (s : EmuState) : EmuState :=
  if s.hbios.output.isEmpty then s
  else
    let p := getOutputChars s.hbios
    { s with console := s.console ++ p.1, hbios := p.2 }

/-- HBIOSEmulator::runBatch (hbios_core.cc lines 553-664), with
cpu.execute abstracted as `step`: return unchanged when not running;
when the dispatcher already needs input, set the waiting flag and return
without executing; otherwise clear the waiting flag, run the instruction
loop, then drain the output ring to the console delegate.  The debug-only
blocks in the source (hlog is a no-op and the proxy dumps only read
memory) do not change state and are omitted. -/
def runBatch (step : EmuState → EmuState) (count : Nat) (s : EmuState) : EmuState :=
  if s.running then
    if s.hbios.state = .NeedsInput then { s with waiting_for_input := true }
    else drainOutput (runLoop step count { s with waiting_for_input := false })
  else s

/-! ### The simple CP/M BIOS layout (CPMBios.cc) -/

/-- CP/M BIOS layout constant from CPMBios.h. -/
def BIOS_BASE : Nat := 0xF600

/-- CP/M BIOS layout constant from CPMBios.h. -/
def XLTTAB_ADDR : Nat := 0xF633

/-- CP/M BIOS layout constant from CPMBios.h. -/
def DPB0_ADDR : Nat := 0xF64D

/-- CP/M BIOS layout constant from CPMBios.h. -/
def DPH0_ADDR : Nat := 0xF65C

/-- CP/M BIOS layout constant from CPMBios.h. -/
def DPH1_ADDR : Nat := 0xF66C

/-- CP/M BIOS layout constant from CPMBios.h. -/
def DPH2_ADDR : Nat := 0xF67C

/-- CP/M BIOS layout constant from CPMBios.h. -/
def DPH3_ADDR : Nat := 0xF68C

/-- CP/M BIOS layout constant from CPMBios.h. -/
def DIRBUF_ADDR : Nat := 0xF69C

/-- CP/M BIOS layout constant from CPMBios.h. -/
def CSV0_ADDR : Nat := 0xF71C

/-- CP/M BIOS layout constant from CPMBios.h. -/
def ALV0_ADDR : Nat := 0xF75C

/-- The IBM 8 inch SSSD sector skew table from CPMBios.cc. -/
def xlttab : List Nat :=
  [1, 7, 13, 19, 25, 5, 11, 17, 23, 3, 9, 15, 21,
   2, 8, 14, 20, 26, 6, 12, 18, 24, 4, 10, 16, 22]

/-- Apply a list of (address, value) byte writes in order, later writes
shadowing earlier ones. -/
def applyWrites (ws : List (Nat × Nat)) (m : Nat → Nat) : Nat → Nat :=
  ws.foldl (fun acc p => updateFn acc p.1 p.2) m

/-- The BIOS jump table writes of cpm_init_bios (CPMBios.cc lines 20-25):
17 entries of 3 bytes each, a JMP opcode followed by the little-endian
address of the entry itself. -/
def jumpWrites : List (Nat × Nat) :=
  (List.range 17).flatMap (fun i =>
    let addr := BIOS_BASE + i * 3
    [(addr, 0xC3), (addr + 1, addr &&& 0xFF), (addr + 2, addr >>> 8)])

/-- The sector translation table writes of cpm_init_bios (CPMBios.cc line
28). -/
def xltWrites : List (Nat × Nat) :=
  (List.range 26).map (fun k => (XLTTAB_ADDR + k, xlttab.getD k 0))

/-- The disk parameter block writes of cpm_init_bios (CPMBios.cc lines
32-47). -/
def dpbWrites : List (Nat × Nat) :=
  [(DPB0_ADDR, 26), (DPB0_ADDR + 1, 0), (DPB0_ADDR + 2, 3),
   (DPB0_ADDR + 3, 7), (DPB0_ADDR + 4, 0), (DPB0_ADDR + 5, 242),
   (DPB0_ADDR + 6, 0), (DPB0_ADDR + 7, 63), (DPB0_ADDR + 8, 0),
   (DPB0_ADDR + 9, 0xC0), (DPB0_ADDR + 10, 0), (DPB0_ADDR + 11, 16),
   (DPB0_ADDR + 12, 0), (DPB0_ADDR + 13, 2), (DPB0_ADDR + 14, 0)]

/-- The disk parameter header writes of cpm_init_bios (CPMBios.cc lines
51-82): for each of the four drives, 16 bytes - zeroed XLT and scratch
words, then the DIRBUF, DPB, CSV and ALV pointers in little-endian
order. -/
def dphWrites : List (Nat × Nat) :=
  (List.range 4).flatMap (fun drive =>
    let dph := [DPH0_ADDR, DPH1_ADDR, DPH2_ADDR, DPH3_ADDR].getD drive 0
    let csv := CSV0_ADDR + drive * 16
    let alv := ALV0_ADDR + drive * 31
    [(dph, 0), (dph + 1, 0), (dph + 2, 0), (dph + 3, 0),
     (dph + 4, 0), (dph + 5, 0), (dph + 6, 0), (dph + 7, 0),
     (dph + 8, DIRBUF_ADDR &&& 0xFF), (dph + 9, DIRBUF_ADDR >>> 8),
     (dph + 10, DPB0_ADDR &&& 0xFF), (dph + 11, DPB0_ADDR >>> 8),
     (dph + 12, csv &&& 0xFF), (dph + 13, csv >>> 8),
     (dph + 14, alv &&& 0xFF), (dph + 15, alv >>> 8)])

/-- A memset of `n` zero bytes starting at `base`, as a write list
(CPMBios.cc lines 85-87). -/
def memsetWrites (base n : Nat) : List (Nat × Nat) :=
  (List.range n).map (fun k => (base + k, 0))

/-- cpm_init_bios (CPMBios.cc lines 14-88) over a 64 KiB memory modelled
as a function: the jump table, translation table, DPB and DPH writes
followed by clearing the DIRBUF (128 bytes), CSV (64 bytes) and ALV (124
bytes) work areas, all in source order. -/
def cpm_init_bios (m : Nat → Nat) : Nat → Nat :=
  applyWrites
    (jumpWrites ++ xltWrites ++ dpbWrites ++ dphWrites ++
     memsetWrites DIRBUF_ADDR 128 ++ memsetWrites CSV0_ADDR 64 ++
     memsetWrites ALV0_ADDR 124) m

/-- The full table write list of cpm_init_bios (jump table, translation
table, DPB, DPHs) spelled out as a literal, used to evaluate single
bytes cheaply; proved equal to the structured lists below. -/
def tableWrites : List (Nat × Nat) :=
  [(62976, 195), (62977, 0), (62978, 246), (62979, 195),
   (62980, 3), (62981, 246), (62982, 195), (62983, 6),
   (62984, 246), (62985, 195), (62986, 9), (62987, 246),
   (62988, 195), (62989, 12), (62990, 246), (62991, 195),
   (62992, 15), (62993, 246), (62994, 195), (62995, 18),
   (62996, 246), (62997, 195), (62998, 21), (62999, 246),
   (63000, 195), (63001, 24), (63002, 246), (63003, 195),
   (63004, 27), (63005, 246), (63006, 195), (63007, 30),
   (63008, 246), (63009, 195), (63010, 33), (63011, 246),
   (63012, 195), (63013, 36), (63014, 246), (63015, 195),
   (63016, 39), (63017, 246), (63018, 195), (63019, 42),
   (63020, 246), (63021, 195), (63022, 45), (63023, 246),
   (63024, 195), (63025, 48), (63026, 246), (63027, 1),
   (63028, 7), (63029, 13), (63030, 19), (63031, 25),
   (63032, 5), (63033, 11), (63034, 17), (63035, 23),
   (63036, 3), (63037, 9), (63038, 15), (63039, 21),
   (63040, 2), (63041, 8), (63042, 14), (63043, 20),
   (63044, 26), (63045, 6), (63046, 12), (63047, 18),
   (63048, 24), (63049, 4), (63050, 10), (63051, 16),
   (63052, 22), (63053, 26), (63054, 0), (63055, 3),
   (63056, 7), (63057, 0), (63058, 242), (63059, 0),
   (63060, 63), (63061, 0), (63062, 192), (63063, 0),
   (63064, 16), (63065, 0), (63066, 2), (63067, 0),
   (63068, 0), (63069, 0), (63070, 0), (63071, 0),
   (63072, 0), (63073, 0), (63074, 0), (63075, 0),
   (63076, 156), (63077, 246), (63078, 77), (63079, 246),
   (63080, 28), (63081, 247), (63082, 92), (63083, 247),
   (63084, 0), (63085, 0), (63086, 0), (63087, 0),
   (63088, 0), (63089, 0), (63090, 0), (63091, 0),
   (63092, 156), (63093, 246), (63094, 77), (63095, 246),
   (63096, 44), (63097, 247), (63098, 123), (63099, 247),
   (63100, 0), (63101, 0), (63102, 0), (63103, 0),
   (63104, 0), (63105, 0), (63106, 0), (63107, 0),
   (63108, 156), (63109, 246), (63110, 77), (63111, 246),
   (63112, 60), (63113, 247), (63114, 154), (63115, 247),
   (63116, 0), (63117, 0), (63118, 0), (63119, 0),
   (63120, 0), (63121, 0), (63122, 0), (63123, 0),
   (63124, 156), (63125, 246), (63126, 77), (63127, 246),
   (63128, 76), (63129, 247), (63130, 185), (63131, 247)]

/-! ### Specification-side definitions used for refinement comparisons -/

/-- The byte at common-area address `a` (the common window is the low
half of RAM bank index 15, physical offset 0x78000); written from the
specification wording for comparison with the source translation. -/
def commonByte (m : BankedMem) (a : Nat) : Nat :=
  m.ram (0x78000 + (a - 0x8000))

/-- Write through the common window at address `a`; specification-side
counterpart of commonByte. -/
def commonWrite (m : BankedMem) (a v : Nat) : BankedMem :=
  { m with ram := updateFn m.ram (0x78000 + (a - 0x8000)) v }

/-- One byte of the bank-copy as claim C2 words it: the source address
HL+i mod 2^16 is read through the common window when at or above 0x8000
and through read_bank with the source bank otherwise, and the byte is
written symmetrically to DE+i mod 2^16. -/
def bnkcpySpecStep (sb db srcA dstA i : Nat) (m : BankedMem) : BankedMem :=
  let sA := (srcA + i) % 2 ^ 16
  let dA := (dstA + i) % 2 ^ 16
  let byte := if 0x8000 ≤ sA then commonByte m sA else readBank m sb sA
  if 0x8000 ≤ dA then commonWrite m dA byte else writeBank m db dA byte

/-- The bank-copy loop as claim C2 words it: bytes i = 0..len-1 moved in
order. -/
def bnkcpySpec (sb db srcA dstA len : Nat) (m : BankedMem) : BankedMem :=
  (List.range len).foldl (fun acc i => bnkcpySpecStep sb db srcA dstA i acc) m

/-- The DPH byte layout claim C5 states: zeroed XLT and scratch words,
then little-endian pointers DIRBUF = 0xF69C, DPB = 0xF64D,
CSV = 0xF71C + 16 * d and ALV = 0xF75C + 31 * d. -/
def dphExpect (d k : Nat) : Nat :=
  if k = 8 then DIRBUF_ADDR &&& 0xFF
  else if k = 9 then DIRBUF_ADDR >>> 8
  else if k = 10 then DPB0_ADDR &&& 0xFF
  else if k = 11 then DPB0_ADDR >>> 8
  else if k = 12 then (CSV0_ADDR + 16 * d) &&& 0xFF
  else if k = 13 then (CSV0_ADDR + 16 * d) >>> 8
  else if k = 14 then (ALV0_ADDR + 31 * d) &&& 0xFF
  else if k = 15 then (ALV0_ADDR + 31 * d) >>> 8
  else 0

/-! ### Concrete sample states used by witnesses and counterexamples -/

/-- A concrete banked memory: ROM holds the low byte of each physical
address, RAM is all zero, ROM bank 0 selected. -/
def sampleMem : BankedMem :=
  { rom := fun a => a % 256, ram := fun _ => 0, current_bank := 0 }

/-- A concrete register file. -/
def sampleRegs : Z80Regs :=
  { AF := 0, BC := 0, DE := 0, HL := 0, IX := 0, SP := 0, PC := 0 }

/-- A concrete dispatcher state with one character queued. -/
def sampleH : HBIOSDispatch :=
  { state := .Idle, input := [65], output := [], blockingAllowed := false }

/-- A concrete emulator state: running, not waiting, no bank initialized
yet. -/
def sampleS : EmuState :=
  { mem := sampleMem, regs := sampleRegs, hbios := sampleH,
    running := true, waiting_for_input := false, instruction_count := 0,
    boot_string_pos := 0, initialized_ram_banks := 0, console := [] }

/-! ### Theorems -/

/-- C10: queueInput replaces a line feed (0x0A) by a carriage return
(0x0D) before queueing and queues every other byte unchanged to the
HBIOS input ring; after every call the waiting-for-input flag is
false. -/
theorem queueInput_lf_cr_and_clears_waiting (s : EmuState) (ch : Nat) :
    (queueInput s ch).hbios.input
      = s.hbios.input ++ [if ch = 0x0A then 0x0D else ch] ∧
    (queueInput s ch).waiting_for_input = false := by
  unfold queueInput queueInputChar
  by_cases h : s.waiting_for_input <;> simp [h]

/-- C9: reset is idempotent - two consecutive resets yield the same
state - and the single reset clears the driver flags and counters,
zeroes AF, BC, DE, HL, PC, SP, resets the HBIOS dispatcher and selects
ROM bank 0. -/
theorem reset_idempotent (s : EmuState) :
    resetEmu (resetEmu s) = resetEmu s ∧
    (resetEmu s).running = false ∧
    (resetEmu s).waiting_for_input = false ∧
    (resetEmu s).instruction_count = 0 ∧
    (resetEmu s).boot_string_pos = 0 ∧
    (resetEmu s).initialized_ram_banks = 0 ∧
    (resetEmu s).regs.AF = 0 ∧
    (resetEmu s).regs.BC = 0 ∧
    (resetEmu s).regs.DE = 0 ∧
    (resetEmu s).regs.HL = 0 ∧
    (resetEmu s).regs.PC = 0 ∧
    (resetEmu s).regs.SP = 0 ∧
    (resetEmu s).hbios = hbiosReset s.hbios ∧
    (resetEmu s).hbios.state = .Idle ∧
    (resetEmu s).hbios.input = [] ∧
    (resetEmu s).hbios.output = [] ∧
    (resetEmu s).mem.current_bank = 0 :=
  ⟨rfl, rfl, rfl, rfl, rfl, rfl, rfl, rfl, rfl, rfl, rfl, rfl, rfl,
   rfl, rfl, rfl, rfl⟩

/-- C8: port_in pops the input ring on port 0x68 (returning 0 when it is
empty and the low byte of the oldest character otherwise), returns the
line-status byte on 0x6D with bits 5 and 6 always set and bit 0 set
exactly when the ring is non-empty, returns 0 on 0xFE, and returns 0xFF
on every port outside the handled set 0x68, 0x6D, 0x78, 0x7C, 0xFE. -/
theorem portIn_behavior (s : EmuState) :
    (s.hbios.input = [] → portInState s 0x68 = (0, s)) ∧
    (∀ c r, s.hbios.input = c :: r →
      (portInState s 0x68).1 = c &&& 0xFF ∧
      (portInState s 0x68).2.hbios.input = r) ∧
    ((portInState s 0x6D).1.testBit 5 = true) ∧
    ((portInState s 0x6D).1.testBit 6 = true) ∧
    ((portInState s 0x6D).1.testBit 0 = true ↔ s.hbios.input ≠ []) ∧
    ((portInState s 0xFE).1 = 0) ∧
    (∀ p, p ∉ ([0x68, 0x6D, 0x78, 0x7C, 0xFE] : List Nat) →
      portInState s p = (0xFF, s)) := by
  refine ⟨?_, ?_, ?_, ?_, ?_, ?_, ?_⟩
  · intro h
    simp [portInState, readInputChar, h]
  · intro c r h
    simp [portInState, readInputChar, h]
  · cases h : s.hbios.input <;>
      simp [portInState, hasInputChar, h] <;> decide
  · cases h : s.hbios.input <;>
      simp [portInState, hasInputChar, h] <;> decide
  · cases h : s.hbios.input <;>
      simp [portInState, hasInputChar, h]
  · simp [portInState]
  · intro p hp
    simp only [List.mem_cons, List.mem_singleton, not_or] at hp
    obtain ⟨h1, h2, h3, h4, h5, -⟩ := hp
    simp [portInState, h1, h2, h3, h4, h5]

/-- C8 witness: at the sample state the queued character 65 is popped
from port 0x68. -/
theorem portIn_behavior_witness :
    (portInState sampleS 0x68).1 = 65 ∧
    (portInState sampleS 0x68).2.hbios.input = [] := by
  have h := (portIn_behavior sampleS).2.1 65 [] rfl
  exact ⟨h.1.trans (by decide), h.2⟩

/-- C4: on every non-empty byte sequence, loadROM returns true, the
resulting ROM holds min(size, 512 KiB) bytes of the data from offset 0
except that offset 0x0112 is patched to 0x00, and RAM holds the first
512 bytes of the patched ROM followed by zeroes (RAM was cleared, and
the 512-byte HCB copy lands at the start of RAM bank index 0). -/
theorem loadROM_success (m : BankedMem) (data : List Nat) (h : data ≠ []) :
    (loadROM m data).1 = true ∧
    (∀ i, (loadROM m data).2.rom i
        = if i = 0x0112 then 0
          else if i < min data.length (512 * 1024) then data.getD i 0
          else m.rom i) ∧
    (∀ j, (loadROM m data).2.ram j
        = if j < 512 then (loadROM m data).2.rom j else 0) ∧
    (loadROM m data).2.current_bank = m.current_bank := by
  have hne : data.isEmpty = false := by
    cases data with
    | nil => exact absurd rfl h
    | cons a l => rfl
  refine ⟨?_, ?_, ?_, ?_⟩
  · simp [loadROM, hne]
  · intro i
    simp only [loadROM, hne, Bool.false_eq_true, if_false, updateFn, clearRam]
  · intro j
    simp only [loadROM, hne, Bool.false_eq_true, if_false, updateFn, clearRam]
  · simp [loadROM, hne, clearRam]

/-- C4 witness: loading the three-byte sequence 7, 8, 9 succeeds and the
first ROM byte is 7. -/
theorem loadROM_success_witness :
    (loadROM sampleMem [7, 8, 9]).1 = true ∧
    (loadROM sampleMem [7, 8, 9]).2.rom 0 = 7 := by
  have h := loadROM_success sampleMem [7, 8, 9] (by decide)
  refine ⟨h.1, (h.2.1 0).trans (by decide)⟩

/-- C7 counterexample: a ROM image one byte larger than 512 KiB is
accepted - loadROM returns true - contradicting the claim that oversized
data fails. -/
theorem loadROM_oversized_accepted :
    (List.replicate 524289 (0 : Nat)).length = 512 * 1024 + 1 ∧
    (loadROM sampleMem (List.replicate 524289 (0 : Nat))).1 = true := by
  constructor
  · rw [List.length_replicate]
  · rfl

/-- C7 amended: loadROM fails, returning false, exactly when the data is
empty (a null pointer or zero size), and on failure it modifies nothing;
oversized data is truncated to 512 KiB and accepted. -/
theorem loadROM_fail_iff (m : BankedMem) (data : List Nat) :
    ((loadROM m data).1 = false ↔ data = []) ∧
    (data = [] → (loadROM m data).2 = m) := by
  constructor
  · cases data <;> simp [loadROM]
  · intro h
    subst h
    rfl

/-- C7 amended witness: loading the empty sequence leaves the sample
memory unchanged and reports failure. -/
theorem loadROM_fail_iff_witness :
    (loadROM sampleMem []).2 = sampleMem ∧ (loadROM sampleMem []).1 = false := by
  refine ⟨(loadROM_fail_iff sampleMem []).2 rfl, ?_⟩
  exact (loadROM_fail_iff sampleMem []).1.mpr rfl

/-! ### RAM bank initialization (claims C1 and C6) -/

/-- write_bank never changes ROM (writes resolving to ROM are
discarded). -/
theorem writeBank_rom (m : BankedMem) (b a v : Nat) :
    (writeBank m b a v).rom = m.rom := by
  unfold writeBank
  split
  · rfl
  · split <;> rfl

/-- read_bank with bank byte 0x00 and a low address reads ROM bank 0. -/
theorem readBank_rom0 (m : BankedMem) (a : Nat) (ha : a < 0x8000) :
    readBank m 0x00 a = m.rom a := by
  unfold readBank bankPhys
  rw [if_neg (by omega), if_neg (by decide)]
  have h0 : (0x00 &&& 0x0F) * 0x8000 + a = a := by simp
  rw [h0]

/-- write_bank into a RAM bank at a low address updates the physical RAM
cell of that bank. -/
theorem writeBank_ram_low (m : BankedMem) (b a v : Nat)
    (ha : a < 0x8000) (hb : b &&& 0x80 ≠ 0) :
    (writeBank m b a v).ram = updateFn m.ram ((b &&& 0x0F) * 0x8000 + a) v := by
  unfold writeBank bankPhys
  rw [if_neg (by omega), if_pos hb]

/-- The bank initialization copy loop never changes ROM. -/
theorem bankInitLoop_rom (b : Nat) :
    ∀ n start m, (bankInitLoop b start n m).rom = m.rom := by
  intro n
  induction n with
  | zero => intro start m; rfl
  | succ n ih =>
    intro start m
    show (bankInitLoop b (start + 1) n
      (writeBank m b start (readBank m 0x00 start))).rom = m.rom
    rw [ih, writeBank_rom]

/-- Effect of the bank initialization copy loop on RAM: the cells of the
target bank in the copied window take the corresponding ROM bank 0
bytes; everything else is untouched. -/
theorem bankInitLoop_ram (b : Nat) (hb : b &&& 0x80 ≠ 0) :
    ∀ n start m x, start + n ≤ 0x8000 →
      (bankInitLoop b start n m).ram x
        = if (b &&& 0x0F) * 0x8000 + start ≤ x ∧
             x < (b &&& 0x0F) * 0x8000 + start + n
          then m.rom (x - (b &&& 0x0F) * 0x8000)
          else m.ram x := by
  intro n
  induction n with
  | zero =>
    intro start m x h
    rw [if_neg (by omega)]
    rfl
  | succ n ih =>
    intro start m x h
    show (bankInitLoop b (start + 1) n
      (writeBank m b start (readBank m 0x00 start))).ram x = _
    rw [ih (start + 1) _ x (by omega), writeBank_rom,
        readBank_rom0 m start (by omega),
        writeBank_ram_low m b start _ (by omega) hb]
    unfold updateFn
    by_cases hD : (b &&& 0x0F) * 0x8000 + start ≤ x ∧
        x < (b &&& 0x0F) * 0x8000 + start + (n + 1)
    · rw [if_pos hD]
      by_cases hA : (b &&& 0x0F) * 0x8000 + (start + 1) ≤ x ∧
          x < (b &&& 0x0F) * 0x8000 + (start + 1) + n
      · rw [if_pos hA]
      · have hx : x = (b &&& 0x0F) * 0x8000 + start := by omega
        rw [if_neg hA, if_pos hx, hx, Nat.add_sub_cancel_left]
    · rw [if_neg hD, if_neg (by omega), if_neg (by omega)]

/-- Combined effect of the two copy loops of initializeRamBankIfNeeded:
RAM bank (b and 0x0F) receives bytes 0x0000..0x01FF of ROM bank 0. -/
theorem bankInit_double_ram (b : Nat) (hb : b &&& 0x80 ≠ 0)
    (m : BankedMem) (x : Nat) :
    (bankInitLoop b 0x0100 0x0100 (bankInitLoop b 0x0000 0x0100 m)).ram x
      = if (b &&& 0x0F) * 0x8000 ≤ x ∧ x < (b &&& 0x0F) * 0x8000 + 0x200
        then m.rom (x - (b &&& 0x0F) * 0x8000)
        else m.ram x := by
  rw [bankInitLoop_ram b hb 0x0100 0x0100 _ x (by omega), bankInitLoop_rom,
      bankInitLoop_ram b hb 0x0100 0x0000 m x (by omega)]
  split_ifs <;> first | rfl | omega

/-- Setting a bit in a Nat bitmask makes the corresponding mask test
non-zero. -/
theorem or_mask_ne_zero (y i : Nat) : (y ||| 1 <<< i) &&& (1 <<< i) ≠ 0 := by
  intro h0
  have hbit : ((y ||| 1 <<< i) &&& (1 <<< i)).testBit i = true := by
    simp [Nat.testBit_and, Nat.testBit_or, Nat.one_shiftLeft,
          Nat.testBit_two_pow_self]
  rw [h0] at hbit
  simp [Nat.zero_testBit] at hbit

/-- initializeRamBankIfNeeded returns its argument unchanged when bit 7
is clear or a reserved bit 4..6 is set. -/
theorem initializeRamBankIfNeeded_skip (s : EmuState) (b : Nat)
    (h : b &&& 0x80 = 0 ∨ b &&& 0x70 ≠ 0) :
    initializeRamBankIfNeeded s b = s := by
  unfold initializeRamBankIfNeeded
  rw [if_pos h]

/-- C1 (amended): a bank value with bit 7 set and the reserved bits 4..6
all clear, written to port 0x78 or 0x7C while its RAM bank index is not
yet in the initialized bitmask, copies page zero and the HCB
(0x0000..0x01FF) from ROM bank 0 into that RAM bank and records the
index in the bitmask; when the index is already recorded, the write
changes no memory contents and no bitmask bit.  (The original claim
omitted the reserved-bits condition; the counterexample below shows a
value with a reserved bit set is not initialized.) -/
theorem ramBankInit_first_select (s : EmuState) (port b : Nat)
    (hport : port = 0x78 ∨ port = 0x7C)
    (hb7 : b &&& 0x80 ≠ 0) (hres : b &&& 0x70 = 0) :
    (s.initialized_ram_banks &&& (1 <<< (b &&& 0x0F)) = 0 →
      (∀ a, a < 0x200 →
        (portOutState s port b).mem.ram ((b &&& 0x0F) * 0x8000 + a)
          = s.mem.rom a) ∧
      (portOutState s port b).initialized_ram_banks &&&
        (1 <<< (b &&& 0x0F)) ≠ 0) ∧
    (s.initialized_ram_banks &&& (1 <<< (b &&& 0x0F)) ≠ 0 →
      (portOutState s port b).mem.ram = s.mem.ram ∧
      (portOutState s port b).mem.rom = s.mem.rom ∧
      (portOutState s port b).initialized_ram_banks
        = s.initialized_ram_banks) := by
  have hcond : ¬(b &&& 0x80 = 0 ∨ b &&& 0x70 ≠ 0) := by
    rintro (hc | hc)
    · exact hb7 hc
    · exact hc hres
  unfold portOutState
  rw [if_pos hport]
  unfold initializeRamBankIfNeeded
  rw [if_neg hcond]
  constructor
  · intro hz
    rw [if_neg (fun hnz => hnz hz)]
    constructor
    · intro a ha
      show (bankInitLoop b 0x0100 0x0100
        (bankInitLoop b 0x0000 0x0100 s.mem)).ram ((b &&& 0x0F) * 0x8000 + a)
          = s.mem.rom a
      rw [bankInit_double_ram b hb7 s.mem _, if_pos (by omega),
          Nat.add_sub_cancel_left]
    · exact or_mask_ne_zero _ _
  · intro hnz
    rw [if_pos hnz]
    exact ⟨rfl, rfl, rfl⟩

/-- C1 witness: writing 0x85 to port 0x78 in the fresh sample state
copies ROM byte 7 into RAM bank 5 and records index 5. -/
theorem ramBankInit_first_select_witness :
    (portOutState sampleS 0x78 0x85).mem.ram ((0x85 &&& 0x0F) * 0x8000 + 7)
      = sampleS.mem.rom 7 ∧
    (portOutState sampleS 0x78 0x85).initialized_ram_banks &&&
      (1 <<< (0x85 &&& 0x0F)) ≠ 0 := by
  have h := (ramBankInit_first_select sampleS 0x78 0x85 (Or.inl rfl)
    (by decide) (by decide)).1 (by decide)
  exact ⟨h.1 7 (by decide), h.2⟩

/-- C1 counterexample: the bank value 0x90 has bit 7 set and its RAM
bank index 0 was never selected, yet the write to port 0x78 performs no
copy and records nothing in the bitmask, because a reserved bit 4..6 is
set. -/
theorem ramBankInit_reserved_not_recorded :
    0x90 &&& 0x80 ≠ 0 ∧
    sampleS.initialized_ram_banks = 0 ∧
    (portOutState sampleS 0x78 0x90).initialized_ram_banks = 0 ∧
    (portOutState sampleS 0x78 0x90).mem.ram ((0x90 &&& 0x0F) * 0x8000 + 1)
      ≠ sampleS.mem.rom 1 := by
  refine ⟨by decide, rfl, rfl, by decide⟩

/-- C6 counterexample: writing 0xA0 (bit 7 plus reserved bit 5) to port
0x78 does not perform the initialization that the corresponding plain
value 0x80 performs - neither the bitmask nor the copied RAM byte
match. -/
theorem reservedBits_differ_from_plain :
    (portOutState sampleS 0x78 0xA0).initialized_ram_banks
      ≠ (portOutState sampleS 0x78 0x80).initialized_ram_banks ∧
    (portOutState sampleS 0x78 0xA0).mem.ram 1
      ≠ (portOutState sampleS 0x78 0x80).mem.ram 1 := by
  constructor
  · decide
  · decide

/-- C6 (amended): a bank value with any reserved bit 4..6 set, written
to port 0x78 or 0x7C, performs no RAM bank initialization at all - RAM,
ROM and the initialized bitmask are unchanged - and only the bank
register takes the written value.  (The original claim said such writes
behave as if the bank index alone applied, including the first-select
initialization; the code skips initialization entirely for them.) -/
theorem reservedBits_no_init (s : EmuState) (port b : Nat)
    (hport : port = 0x78 ∨ port = 0x7C) (hres : b &&& 0x70 ≠ 0) :
    (portOutState s port b).mem.ram = s.mem.ram ∧
    (portOutState s port b).mem.rom = s.mem.rom ∧
    (portOutState s port b).initialized_ram_banks
      = s.initialized_ram_banks ∧
    (portOutState s port b).mem.current_bank = b := by
  unfold portOutState
  rw [if_pos hport, initializeRamBankIfNeeded_skip s b (Or.inr hres)]
  exact ⟨rfl, rfl, rfl, rfl⟩

/-- C6 amended witness: writing 0xF0 to port 0x7C only sets the bank
register. -/
theorem reservedBits_no_init_witness :
    (portOutState sampleS 0x7C 0xF0).mem.current_bank = 0xF0 ∧
    (portOutState sampleS 0x7C 0xF0).initialized_ram_banks
      = sampleS.initialized_ram_banks ∧
    (portOutState sampleS 0x7C 0xF0).mem.ram = sampleS.mem.ram := by
  have h := reservedBits_no_init sampleS 0x7C 0xF0 (Or.inr rfl) (by decide)
  exact ⟨h.2.2.2, h.2.2.1, h.1⟩

/-! ### Bank copy: port 0xEC (claim C2) -/

/-- fetch_mem at or above 0x8000 reads the common window, independently
of the selected bank. -/
theorem fetchMem_common (m : BankedMem) (a : Nat) (ha : 0x8000 ≤ a) :
    fetchMem m a = commonByte m a := by
  unfold fetchMem readBank commonByte
  rw [if_pos ha]

/-- store_mem at or above 0x8000 writes the common window, independently
of the selected bank. -/
theorem storeMem_common (m : BankedMem) (a v : Nat) (ha : 0x8000 ≤ a) :
    storeMem m a v = commonWrite m a v := by
  unfold storeMem writeBank commonWrite
  rw [if_pos ha]

/-- The source-translated copy step equals the claim-side copy step. -/
theorem bnkcpyStep_eq_spec (sb db sA dA i : Nat) (m : BankedMem) :
    bnkcpyStep sb db sA dA i m = bnkcpySpecStep sb db sA dA i m := by
  have hbyte : (if 0x8000 ≤ (sA + i) % 65536
        then fetchMem m ((sA + i) % 65536)
        else readBank m sb ((sA + i) % 65536))
      = (if 0x8000 ≤ (sA + i) % 65536
        then commonByte m ((sA + i) % 65536)
        else readBank m sb ((sA + i) % 65536)) := by
    split_ifs with h
    · exact fetchMem_common m _ h
    · rfl
  show (if 0x8000 ≤ (dA + i) % 65536
      then storeMem m ((dA + i) % 65536)
        (if 0x8000 ≤ (sA + i) % 65536
          then fetchMem m ((sA + i) % 65536)
          else readBank m sb ((sA + i) % 65536))
      else writeBank m db ((dA + i) % 65536)
        (if 0x8000 ≤ (sA + i) % 65536
          then fetchMem m ((sA + i) % 65536)
          else readBank m sb ((sA + i) % 65536)))
    = (if 0x8000 ≤ (dA + i) % 65536
      then commonWrite m ((dA + i) % 65536)
        (if 0x8000 ≤ (sA + i) % 65536
          then commonByte m ((sA + i) % 65536)
          else readBank m sb ((sA + i) % 65536))
      else writeBank m db ((dA + i) % 65536)
        (if 0x8000 ≤ (sA + i) % 65536
          then commonByte m ((sA + i) % 65536)
          else readBank m sb ((sA + i) % 65536)))
  rw [hbyte]
  split_ifs with hd hs
  · exact storeMem_common m _ _ hd
  · exact storeMem_common m _ _ hd
  · rfl
  · rfl

/-- The copy loop is the left fold of the claim-side step over the index
range. -/
theorem bnkcpyLoop_eq_range (sb db sA dA : Nat) :
    ∀ n i m, bnkcpyLoop sb db sA dA i n m
      = (List.range' i n).foldl
          (fun acc j => bnkcpySpecStep sb db sA dA j acc) m := by
  intro n
  induction n with
  | zero => intro i m; rfl
  | succ n ih =>
    intro i m
    show bnkcpyLoop sb db sA dA (i + 1) n (bnkcpyStep sb db sA dA i m) = _
    rw [ih, List.range'_succ, List.foldl_cons, bnkcpyStep_eq_spec]

/-- C2: the OUT to port 0xEC performs exactly the bank copy the claim
describes - for i = 0..BC-1 the byte at HL+i (mod 2^16) is read through
the common window when the address is at or above 0x8000 and through
read_bank with the source bank (the byte at common address 0xFFE4)
otherwise, and written symmetrically to DE+i (mod 2^16) using the
destination bank (the byte at common address 0xFFE7). -/
theorem portOut_EC_is_bnkcpySpec (s : EmuState) (v : Nat) :
    portOutState s 0xEC v
      = { s with
          mem := bnkcpySpec (commonByte s.mem 0xFFE4) (commonByte s.mem 0xFFE7)
                   s.regs.HL s.regs.DE s.regs.BC s.mem } := by
  unfold portOutState
  rw [if_neg (by decide), if_pos rfl,
      fetchMem_common s.mem 0xFFE4 (by norm_num),
      fetchMem_common s.mem 0xFFE7 (by norm_num)]
  unfold bnkcpySpec
  show { s with
         mem := bnkcpyLoop (commonByte s.mem 0xFFE4) (commonByte s.mem 0xFFE7)
                  s.regs.HL s.regs.DE 0 s.regs.BC s.mem } = _
  rw [bnkcpyLoop_eq_range, List.range_eq_range']

/-! ### Batch execution (claim C3) -/

/-- When the CPU step leaves the instruction counter alone (as
cpu.execute does - the counter is a private driver field), the loop runs
at most n instructions. -/
theorem runLoop_count (step : EmuState → EmuState)
    (hc : ∀ u, (step u).instruction_count = u.instruction_count) :
    ∀ n s, (runLoop step n s).instruction_count ≤ s.instruction_count + n := by
  intro n
  induction n with
  | zero => intro s; exact Nat.le_add_right _ _
  | succ n ih =>
    intro s
    unfold runLoop
    by_cases hr : s.running = true
    · rw [if_pos hr]
      have hcnt : (execOnce step s).instruction_count
          = s.instruction_count + 1 := by
        unfold execOnce
        rw [hc]
      cases hst : (execOnce step s).hbios.state with
      | NeedsInput =>
        show (execOnce step s).instruction_count ≤ s.instruction_count + (n + 1)
        omega
      | Halted =>
        show (execOnce step s).instruction_count ≤ s.instruction_count + (n + 1)
        omega
      | Idle =>
        show (runLoop step n (execOnce step s)).instruction_count
          ≤ s.instruction_count + (n + 1)
        have h2 := ih (execOnce step s)
        omega
    · rw [if_neg hr]
      exact Nat.le_add_right _ _

/-- Starting from the Idle dispatcher state, the loop result satisfies:
NeedsInput implies the waiting flag is set, Halted implies running has
been cleared. -/
theorem runLoop_flags (step : EmuState → EmuState) :
    ∀ n s, s.hbios.state = .Idle →
      ((runLoop step n s).hbios.state = .NeedsInput →
        (runLoop step n s).waiting_for_input = true) ∧
      ((runLoop step n s).hbios.state = .Halted →
        (runLoop step n s).running = false) := by
  intro n
  induction n with
  | zero =>
    intro s hI
    refine ⟨fun h => ?_, fun h => ?_⟩ <;>
      · have h2 : s.hbios.state = _ := h
        rw [hI] at h2
        cases h2
  | succ n ih =>
    intro s hI
    unfold runLoop
    by_cases hr : s.running = true
    · rw [if_pos hr]
      cases hst : (execOnce step s).hbios.state with
      | NeedsInput =>
        refine ⟨fun _ => rfl, fun h => ?_⟩
        have h2 : (execOnce step s).hbios.state = HState.Halted := h
        rw [hst] at h2
        cases h2
      | Halted =>
        refine ⟨fun h => ?_, fun _ => rfl⟩
        have h2 : (execOnce step s).hbios.state = HState.NeedsInput := h
        rw [hst] at h2
        cases h2
      | Idle =>
        exact ih (execOnce step s) hst
    · rw [if_neg hr]
      refine ⟨fun h => ?_, fun h => ?_⟩ <;>
        · have h2 : s.hbios.state = _ := h
          rw [hI] at h2
          cases h2

/-- When the CPU step leaves the console alone (the delegate is only
invoked from the drain after the loop), the loop forwards nothing to the
console. -/
theorem runLoop_console (step : EmuState → EmuState)
    (hk : ∀ u, (step u).console = u.console) :
    ∀ n s, (runLoop step n s).console = s.console := by
  intro n
  induction n with
  | zero => intro s; rfl
  | succ n ih =>
    intro s
    unfold runLoop
    by_cases hr : s.running = true
    · rw [if_pos hr]
      have hcc : (execOnce step s).console = s.console := by
        unfold execOnce
        rw [hk]
      cases hst : (execOnce step s).hbios.state with
      | NeedsInput => exact hcc
      | Halted => exact hcc
      | Idle => exact (ih (execOnce step s)).trans hcc
    · rw [if_neg hr]

/-- The drain touches only the console and the output ring. -/
theorem drainOutput_preserves (s : EmuState) :
    (drainOutput s).hbios.state = s.hbios.state ∧
    (drainOutput s).waiting_for_input = s.waiting_for_input ∧
    (drainOutput s).running = s.running ∧
    (drainOutput s).instruction_count = s.instruction_count := by
  unfold drainOutput getOutputChars
  cases h : s.hbios.output.isEmpty <;> simp

/-- The drain appends the whole output ring, in ring order, to the
console and empties the ring. -/
theorem drainOutput_console (s : EmuState) :
    (drainOutput s).console = s.console ++ s.hbios.output ∧
    (drainOutput s).hbios.output = [] := by
  unfold drainOutput getOutputChars
  cases h : s.hbios.output.isEmpty with
  | true =>
    have hout : s.hbios.output = [] := by
      cases h2 : s.hbios.output with
      | nil => rfl
      | cons a l => rw [h2] at h; cases h
    simp [hout]
  | false => simp

/-- C3: runBatch executes at most n instructions; when the dispatcher
already needs input it executes none and (when running) sets the waiting
flag; starting from Idle, a NeedsInput outcome always carries the
waiting flag and a Halted outcome always carries a cleared running flag;
and after the loop the entire output ring is forwarded to the console
delegate in push order, leaving the ring empty.  The step function
stands for cpu.execute, which cannot touch the private driver counter or
the delegate sink, stated as the two preservation hypotheses. -/
theorem runBatch_spec (step : EmuState → EmuState) (n : Nat) (s : EmuState)
    (hc : ∀ u, (step u).instruction_count = u.instruction_count)
    (hk : ∀ u, (step u).console = u.console) :
    (runBatch step n s).instruction_count ≤ s.instruction_count + n ∧
    (s.hbios.state = .NeedsInput →
      (runBatch step n s).instruction_count = s.instruction_count ∧
      (s.running = true → (runBatch step n s).waiting_for_input = true)) ∧
    (s.hbios.state = .Idle →
      ((runBatch step n s).hbios.state = .NeedsInput →
        (runBatch step n s).waiting_for_input = true) ∧
      ((runBatch step n s).hbios.state = .Halted →
        (runBatch step n s).running = false)) ∧
    (s.running = true → s.hbios.state ≠ .NeedsInput →
      (runBatch step n s).console
        = s.console ++
          (runLoop step n { s with waiting_for_input := false }).hbios.output ∧
      (runBatch step n s).hbios.output = []) := by
  unfold runBatch
  by_cases hr : s.running = true
  · rw [if_pos hr]
    by_cases hN : s.hbios.state = .NeedsInput
    · rw [if_pos hN]
      refine ⟨Nat.le_add_right _ _, fun _ => ⟨rfl, fun _ => rfl⟩,
              fun hI => ?_, fun _ hne => absurd hN hne⟩
      rw [hI] at hN
      cases hN
    · rw [if_neg hN]
      refine ⟨?_, fun hNN => absurd hNN hN, fun hI => ?_, fun _ _ => ?_⟩
      · have h1 := (drainOutput_preserves
          (runLoop step n { s with waiting_for_input := false })).2.2.2
        have h2 := runLoop_count step hc n { s with waiting_for_input := false }
        have h3 : ({ s with waiting_for_input := false } : EmuState).instruction_count
            = s.instruction_count := rfl
        omega
      · have hI2 : ({ s with waiting_for_input := false } : EmuState).hbios.state
            = HState.Idle := hI
        have hf := runLoop_flags step n { s with waiting_for_input := false } hI2
        have hp := drainOutput_preserves
          (runLoop step n { s with waiting_for_input := false })
        refine ⟨fun h => ?_, fun h => ?_⟩
        · rw [hp.1] at h
          rw [hp.2.1]
          exact hf.1 h
        · rw [hp.1] at h
          rw [hp.2.2.1]
          exact hf.2 h
      · have hd := drainOutput_console
          (runLoop step n { s with waiting_for_input := false })
        have hcons := runLoop_console step hk n { s with waiting_for_input := false }
        refine ⟨?_, hd.2⟩
        rw [hd.1, hcons]
  · rw [if_neg hr]
    have hrf : s.running = false := by
      cases h : s.running
      · rfl
      · exact absurd h hr
    refine ⟨Nat.le_add_right _ _, fun _ => ⟨rfl, fun h => absurd h hr⟩,
            fun hI => ⟨fun h => ?_, fun h => ?_⟩, fun h _ => absurd h hr⟩ <;>
      rw [hI] at h <;> cases h

/-- C3 witness: with the identity step, one batch from the sample state
keeps the instruction count within bound one and leaves the output ring
empty. -/
theorem runBatch_spec_witness :
    (runBatch id 1 sampleS).instruction_count ≤ sampleS.instruction_count + 1 ∧
    (runBatch id 1 sampleS).hbios.output = [] := by
  have h := runBatch_spec id 1 sampleS (fun u => rfl) (fun u => rfl)
  exact ⟨h.1, (h.2.2.2 rfl (by decide)).2⟩

/-! ### Simple CP/M BIOS layout (claim C5) -/

/-- Applying an appended write list equals applying the two lists in
sequence. -/
theorem applyWrites_append (l1 l2 : List (Nat × Nat)) (m : Nat → Nat) :
    applyWrites (l1 ++ l2) m = applyWrites l2 (applyWrites l1 m) := by
  unfold applyWrites
  rw [List.foldl_append]

/-- Closed form of a memset write list: zero inside the window, the
underlying memory outside. -/
theorem applyWrites_memset (base n : Nat) (m : Nat → Nat) (x : Nat) :
    applyWrites (memsetWrites base n) m x
      = if base ≤ x ∧ x < base + n then 0 else m x := by
  induction n with
  | zero =>
    rw [if_neg (by omega)]
    rfl
  | succ n ih =>
    have hsucc : memsetWrites base (n + 1)
        = memsetWrites base n ++ [(base + n, 0)] := by
      unfold memsetWrites
      rw [List.range_succ, List.map_append]
      rfl
    rw [hsucc, applyWrites_append]
    show updateFn (applyWrites (memsetWrites base n) m) (base + n) 0 x = _
    unfold updateFn
    by_cases hx : x = base + n
    · rw [if_pos hx, if_pos (by omega)]
    · rw [if_neg hx, ih]
      by_cases hin : base ≤ x ∧ x < base + n
      · rw [if_pos hin, if_pos (by omega)]
      · rw [if_neg hin, if_neg (by omega)]

/-- Decomposition of cpm_init_bios into the table writes followed by
the three work-area clears. -/
theorem cpm_init_split (mem : Nat → Nat) (x : Nat) :
    cpm_init_bios mem x
      = applyWrites (memsetWrites ALV0_ADDR 124)
          (applyWrites (memsetWrites CSV0_ADDR 64)
            (applyWrites (memsetWrites DIRBUF_ADDR 128)
              (applyWrites (jumpWrites ++ xltWrites ++ dpbWrites ++ dphWrites)
                mem))) x := by
  unfold cpm_init_bios
  rw [applyWrites_append, applyWrites_append, applyWrites_append]

/-- Below the work areas, cpm_init_bios is the table writes alone. -/
theorem cpm_init_low (mem : Nat → Nat) (x : Nat) (hx : x < 0xF69C) :
    cpm_init_bios mem x
      = applyWrites (jumpWrites ++ xltWrites ++ dpbWrites ++ dphWrites)
          mem x := by
  rw [cpm_init_split mem x,
      applyWrites_memset, if_neg (by simp only [ALV0_ADDR]; omega),
      applyWrites_memset, if_neg (by simp only [CSV0_ADDR]; omega),
      applyWrites_memset, if_neg (by simp only [DIRBUF_ADDR]; omega)]

/-- A some-initialized lookup fold stays some. -/
theorem foldl_some (x : Nat) :
    ∀ (ws : List (Nat × Nat)) (v : Nat),
      ∃ w, ws.foldl (fun acc p => if p.1 = x then some p.2 else acc)
        (some v) = some w := by
  intro ws
  induction ws with
  | nil => intro v; exact ⟨v, rfl⟩
  | cons q ws ih =>
    intro v
    show ∃ w, ws.foldl (fun acc p => if p.1 = x then some p.2 else acc)
      (if q.1 = x then some q.2 else some v) = some w
    by_cases hq : q.1 = x
    · rw [if_pos hq]
      exact ih q.2
    · rw [if_neg hq]
      exact ih v

/-- Swapping a some-initialized lookup fold for a none-initialized one
moves the initial value into the default. -/
theorem foldl_default_irrel (x : Nat) :
    ∀ (ws : List (Nat × Nat)) (v d : Nat),
      (ws.foldl (fun acc p => if p.1 = x then some p.2 else acc)
        (some v)).getD d
        = (ws.foldl (fun acc p => if p.1 = x then some p.2 else acc)
            none).getD v := by
  intro ws
  induction ws with
  | nil => intro v d; rfl
  | cons q ws ih =>
    intro v d
    show (ws.foldl (fun acc p => if p.1 = x then some p.2 else acc)
        (if q.1 = x then some q.2 else some v)).getD d
      = (ws.foldl (fun acc p => if p.1 = x then some p.2 else acc)
          (if q.1 = x then some q.2 else none)).getD v
    by_cases hq : q.1 = x
    · rw [if_pos hq, if_pos hq]
      obtain ⟨w, hw⟩ := foldl_some x ws q.2
      rw [hw]
      rfl
    · rw [if_neg hq, if_neg hq]
      exact ih v d

/-- A write list applied at one address is the last matching write, or
the underlying memory if no write matches. -/
theorem applyWrites_eval (x : Nat) :
    ∀ (ws : List (Nat × Nat)) (m : Nat → Nat),
      applyWrites ws m x
        = (ws.foldl (fun acc p => if p.1 = x then some p.2 else acc)
            none).getD (m x) := by
  intro ws
  induction ws with
  | nil => intro m; rfl
  | cons p ws ih =>
    intro m
    show applyWrites ws (updateFn m p.1 p.2) x
      = (ws.foldl (fun acc p => if p.1 = x then some p.2 else acc)
          (if p.1 = x then some p.2 else none)).getD (m x)
    rw [ih (updateFn m p.1 p.2)]
    by_cases hp : p.1 = x
    · rw [if_pos hp, foldl_default_irrel x ws p.2 (m x)]
      have hu : updateFn m p.1 p.2 x = p.2 := by
        unfold updateFn
        rw [if_pos hp.symm]
      rw [hu]
    · rw [if_neg hp]
      have hu : updateFn m p.1 p.2 x = m x := by
        unfold updateFn
        rw [if_neg (fun h => hp h.symm)]
      rw [hu]

/-- The structured write lists concatenate to the literal table. -/
theorem tableWrites_eq :
    jumpWrites ++ xltWrites ++ dpbWrites ++ dphWrites = tableWrites := by
  rfl

/-- Below the work areas, a byte of cpm_init_bios is the last matching
table write. -/
theorem tableByte (mem : Nat → Nat) (x : Nat) (hx : x < 0xF69C) :
    cpm_init_bios mem x
      = (tableWrites.foldl
          (fun acc p => if p.1 = x then some p.2 else acc) none).getD
          (mem x) := by
  rw [cpm_init_low mem x hx, tableWrites_eq]
  exact applyWrites_eval x tableWrites mem

/-- The jump-table region of the BIOS layout. -/
theorem cpm_init_jumps (mem : Nat → Nat) :
    ∀ i, i < 17 →
      cpm_init_bios mem (0xF600 + 3 * i) = 0xC3 ∧
      cpm_init_bios mem (0xF600 + 3 * i + 1) = (0xF600 + 3 * i) &&& 0xFF ∧
      cpm_init_bios mem (0xF600 + 3 * i + 2) = (0xF600 + 3 * i) >>> 8 := by
  intro i hi
  have hd : ∀ j ∈ List.range 17,
      (tableWrites.foldl
        (fun acc p => if p.1 = 0xF600 + 3 * j then some p.2 else acc) none)
        = some 0xC3 ∧
      (tableWrites.foldl
        (fun acc p => if p.1 = 0xF600 + 3 * j + 1 then some p.2 else acc) none)
        = some ((0xF600 + 3 * j) &&& 0xFF) ∧
      (tableWrites.foldl
        (fun acc p => if p.1 = 0xF600 + 3 * j + 2 then some p.2 else acc) none)
        = some ((0xF600 + 3 * j) >>> 8) := by decide
  obtain ⟨h1, h2, h3⟩ := hd i (List.mem_range.mpr hi)
  refine ⟨?_, ?_, ?_⟩
  · rw [tableByte mem (0xF600 + 3 * i) (by omega), h1, Option.getD_some]
  · rw [tableByte mem (0xF600 + 3 * i + 1) (by omega), h2, Option.getD_some]
  · rw [tableByte mem (0xF600 + 3 * i + 2) (by omega), h3, Option.getD_some]

/-- The sector translation region of the BIOS layout. -/
theorem cpm_init_xlt (mem : Nat → Nat) :
    ∀ k, k < 26 → cpm_init_bios mem (0xF633 + k) = xlttab.getD k 0 := by
  intro k hk
  have hd : ∀ j ∈ List.range 26,
      (tableWrites.foldl
        (fun acc p => if p.1 = 0xF633 + j then some p.2 else acc) none)
        = some (xlttab.getD j 0) := by decide
  rw [tableByte mem (0xF633 + k) (by omega),
      hd k (List.mem_range.mpr hk), Option.getD_some]

/-- The DPB region of the BIOS layout. -/
theorem cpm_init_dpb (mem : Nat → Nat) :
    ∀ k, k < 15 →
      cpm_init_bios mem (0xF64D + k)
        = [26, 0, 3, 7, 0, 242, 0, 63, 0, 0xC0, 0, 16, 0, 2, 0].getD k 0 := by
  intro k hk
  have hd : ∀ j ∈ List.range 15,
      (tableWrites.foldl
        (fun acc p => if p.1 = 0xF64D + j then some p.2 else acc) none)
        = some (([26, 0, 3, 7, 0, 242, 0, 63, 0, 0xC0, 0, 16, 0, 2, 0] :
            List Nat).getD j 0) := by decide
  rw [tableByte mem (0xF64D + k) (by omega),
      hd k (List.mem_range.mpr hk), Option.getD_some]

/-- The DPH region of the BIOS layout. -/
theorem cpm_init_dph (mem : Nat → Nat) :
    ∀ d k, d < 4 → k < 16 →
      cpm_init_bios mem (0xF65C + 0x10 * d + k) = dphExpect d k := by
  intro d k hd hk
  have hdec : ∀ dj ∈ List.range 4, ∀ j ∈ List.range 16,
      (tableWrites.foldl
        (fun acc p => if p.1 = 0xF65C + 0x10 * dj + j then some p.2 else acc)
        none)
        = some (dphExpect dj j) := by decide
  rw [tableByte mem (0xF65C + 0x10 * d + k) (by omega),
      hdec d (List.mem_range.mpr hd) k (List.mem_range.mpr hk),
      Option.getD_some]

/-- The zeroed work areas of the BIOS layout. -/
theorem cpm_init_work_areas (mem : Nat → Nat) :
    (∀ k, k < 128 → cpm_init_bios mem (0xF69C + k) = 0) ∧
    (∀ k, k < 64 → cpm_init_bios mem (0xF71C + k) = 0) ∧
    (∀ k, k < 124 → cpm_init_bios mem (0xF75C + k) = 0) := by
  refine ⟨fun k hk => ?_, fun k hk => ?_, fun k hk => ?_⟩
  · rw [cpm_init_split mem (0xF69C + k),
        applyWrites_memset, if_neg (by simp only [ALV0_ADDR]; omega),
        applyWrites_memset, if_neg (by simp only [CSV0_ADDR]; omega),
        applyWrites_memset, if_pos (by simp only [DIRBUF_ADDR]; omega)]
  · rw [cpm_init_split mem (0xF71C + k),
        applyWrites_memset, if_neg (by simp only [ALV0_ADDR]; omega),
        applyWrites_memset, if_pos (by simp only [CSV0_ADDR]; omega)]
  · rw [cpm_init_split mem (0xF75C + k),
        applyWrites_memset, if_pos (by simp only [ALV0_ADDR]; omega)]

/-- C5: cpm_init_bios establishes the simple CP/M BIOS layout bit-exact
for every 64 KiB memory: the 17 three-byte self-targeting JMP entries at
0xF600, the 26-byte sector translation table at 0xF633, the 15-byte DPB
at 0xF64D, the four 16-byte DPHs at 0xF65C + 0x10 * d with the pointers
the claim lists, and zeroed DIRBUF (128 bytes at 0xF69C), CSV (64 bytes
at 0xF71C) and ALV (124 bytes at 0xF75C) work areas. -/
theorem cpm_init_bios_layout (mem : Nat → Nat) :
    (∀ i, i < 17 →
      cpm_init_bios mem (0xF600 + 3 * i) = 0xC3 ∧
      cpm_init_bios mem (0xF600 + 3 * i + 1) = (0xF600 + 3 * i) &&& 0xFF ∧
      cpm_init_bios mem (0xF600 + 3 * i + 2) = (0xF600 + 3 * i) >>> 8) ∧
    (∀ k, k < 26 → cpm_init_bios mem (0xF633 + k) = xlttab.getD k 0) ∧
    (∀ k, k < 15 →
      cpm_init_bios mem (0xF64D + k)
        = [26, 0, 3, 7, 0, 242, 0, 63, 0, 0xC0, 0, 16, 0, 2, 0].getD k 0) ∧
    (∀ d k, d < 4 → k < 16 →
      cpm_init_bios mem (0xF65C + 0x10 * d + k) = dphExpect d k) ∧
    (∀ k, k < 128 → cpm_init_bios mem (0xF69C + k) = 0) ∧
    (∀ k, k < 64 → cpm_init_bios mem (0xF71C + k) = 0) ∧
    (∀ k, k < 124 → cpm_init_bios mem (0xF75C + k) = 0) :=
  ⟨cpm_init_jumps mem, cpm_init_xlt mem, cpm_init_dpb mem, cpm_init_dph mem,
   (cpm_init_work_areas mem).1, (cpm_init_work_areas mem).2.1,
   (cpm_init_work_areas mem).2.2⟩

/-- C5 witness: on the constant memory 0xAB, the first jump-table byte
is the JMP opcode, the first translation entry is 1 and the first DPB
byte is 26. -/
theorem cpm_init_bios_layout_witness :
    cpm_init_bios (fun _ => 0xAB) (0xF600 + 3 * 0) = 0xC3 ∧
    cpm_init_bios (fun _ => 0xAB) (0xF633 + 0) = xlttab.getD 0 0 ∧
    cpm_init_bios (fun _ => 0xAB) (0xF69C + 5) = 0 := by
  have h := cpm_init_bios_layout (fun _ => 0xAB)
  exact ⟨(h.1 0 (by decide)).1, h.2.1 0 (by decide), h.2.2.2.2.1 5 (by decide)⟩

end HBCore
